import Mathlib

/-!
# Verification of the KGE food-recommendation core

Shallow embedding of the knowledge-graph construction pipeline
(`backend/core/graph_triples.py`), the triple canonicalizer
(`backend/core/model.py`) and the criteria translation / ranking
aggregation logic (`backend/core/recommender.py`).

Modelling conventions:
* Python strings are Lean `String`s; the Python primitives `str.strip`,
  `str.lower`, `str.split` and the `in` substring test are re-implemented
  below over `List Char` (ASCII case folding; Python's Unicode case table
  and extended whitespace set are not needed by the repository's data).
* Floating point scores are modelled as rationals (`ℚ`); the properties
  at stake are order/arithmetic properties that do not depend on rounding.
* The `networkx.DiGraph` is modelled by its node list and edge list with
  the library's upsert semantics (adding an existing edge overwrites its
  attributes, adding an existing node is a no-op on the node set).
* The PyKEEN `predict_target` call is an opaque external adapter and is
  passed as a function argument.
-/

namespace FoodKG

/-! ## Python string primitives -/

/-- The whitespace characters stripped by `str.strip()` (ASCII subset). -/
def isPySpace (c : Char) : Bool :=
  c = ' ' || c = '\t' || c = '\n' || c = '\r'

/-- ASCII case folding for one character, as `str.lower()` does on ASCII. -/
def pyCharLower (c : Char) : Char :=
  match c with
  | 'A' => 'a' | 'B' => 'b' | 'C' => 'c' | 'D' => 'd' | 'E' => 'e'
  | 'F' => 'f' | 'G' => 'g' | 'H' => 'h' | 'I' => 'i' | 'J' => 'j'
  | 'K' => 'k' | 'L' => 'l' | 'M' => 'm' | 'N' => 'n' | 'O' => 'o'
  | 'P' => 'p' | 'Q' => 'q' | 'R' => 'r' | 'S' => 's' | 'T' => 't'
  | 'U' => 'u' | 'V' => 'v' | 'W' => 'w' | 'X' => 'x' | 'Y' => 'y'
  | 'Z' => 'z' | c => c

/-- Python `s.lower()`. -/
def pyLower (s : String) : String :=
  String.mk (s.data.map pyCharLower)

/-- Leading-whitespace removal on character lists. -/
def ltrim (l : List Char) : List Char :=
  l.dropWhile isPySpace

/-- Python `s.strip()`: drop whitespace from both ends. -/
def pyStrip (s : String) : String :=
  String.mk ((ltrim (ltrim s.data.reverse).reverse))

/-- Python substring test `needle in hay`. -/
def pyContains (hay needle : String) : Bool :=
  go needle.data hay.data
where
  go (needle : List Char) : List Char → Bool
    | [] => needle.isPrefixOf []
    | c :: cs => needle.isPrefixOf (c :: cs) || go needle cs

/-- Python `s.startswith(pre)`. -/
def pyStartsWith (s pre : String) : Bool :=
  pre.data.isPrefixOf s.data

/-- Python `s.split(d)` for a one-character separator `d` (both call
sites in `graph_triples.py` use the one-character separators `","` and
`";"`). `""` splits to `[""]`, as in Python. -/
def pySplitChar (d : Char) : List Char → List (List Char)
  | [] => [[]]
  | c :: cs =>
    match pySplitChar d cs with
    | [] => [[c]]      -- unreachable: the result is always nonempty
    | p :: ps => if c = d then [] :: p :: ps else (c :: p) :: ps

/-- Python `s.split(pat, 1)[1]`: the remainder of `s` after the first
occurrence of `pat`, or `none` when `pat` does not occur (where Python
raises `IndexError`). -/
def dropAfterFirst (pat : List Char) : List Char → Option (List Char)
  | [] => if pat.isPrefixOf [] then some [] else none
  | c :: cs =>
    if pat.isPrefixOf (c :: cs) then some ((c :: cs).drop pat.length)
    else dropAfterFirst pat cs

/-! ## Entity/Relation Mapper (`graph_triples.py`) -/

def UNKNOWN_PLACEHOLDER : String := "unknown"

/-- `map_health_attribute`: map a healthy attribute string to a relation
label by case-insensitive substring checks in a fixed order. -/
def map_health_attribute (element : String) : String :=
  let e := pyLower element
  if pyContains e "protein" then "HasProteinLevel"
  else if pyContains e "carb" then "HasCarbLevel"
  else if pyContains e "fat" && !pyContains e "saturated" then "HasFatLevel"
  else if pyContains e "saturated_fat" then "HasSaturatedFatLevel"
  else if pyContains e "calorie" then "HasCalorieLevel"
  else if pyContains e "sodium" then "HasSodiumLevel"
  else if pyContains e "sugar" then "HasSugarLevel"
  else if pyContains e "fiber" then "HasFiberLevel"
  else if pyContains e "cholesterol" then "HasCholesterolLevel"
  else "HasHealthAttribute"

/-- `split_and_clean`: split by the delimiter, trim whitespace, drop
empties. -/
def split_and_clean (value : String) (delimiter : Char) : List String :=
  (((pySplitChar delimiter value.data).map (fun l => pyStrip (String.mk l))).filter
    (fun v => v ≠ ""))

/-! ## Graph Builder (`create_graph_and_triples`) -/

/-- A graph node identifier: a (type, value) pair.  `RecipeId` keys are
modelled as strings (they are opaque to all the logic verified here). -/
abbrev NodeId := String × String

/-- `str(node_id)`: Python's rendering of a pair of strings.  (Python's
`repr` switches to double quotes on values containing a single quote;
the repository's attribute values contain none, and no property below
depends on the concrete rendering being injective.) -/
def strNode (n : NodeId) : String :=
  "('" ++ n.1 ++ "', '" ++ n.2 ++ "')"

/-- A directed labeled edge of the knowledge graph. -/
structure Edge where
  head : NodeId
  rel : String
  tail : NodeId
deriving DecidableEq, Repr

/-- A flattened triple record, as appended to the `triples` list. -/
abbrev Triple := String × String × String

/-- The state grown while iterating over the recipes: the graph's node
list, its edge list, and the flat triples list. -/
structure BuildState where
  nodes : List NodeId
  edges : List Edge
  triples : List Triple
deriving DecidableEq, Repr

/-- `G.add_node` (also the explicit `if not G.has_node` guards): a
no-op on the node set when the node is already present. -/
def addNode (ns : List NodeId) (n : NodeId) : List NodeId :=
  if n ∈ ns then ns else ns ++ [n]

/-- `G.add_edge(u, v, relation=r)`: when the edge `(u, v)` already
exists its `relation` attribute is overwritten, otherwise the edge is
appended. -/
def addEdge (es : List Edge) (e : Edge) : List Edge :=
  if es.any (fun f => f.head = e.head && f.tail = e.tail) then
    es.map (fun f =>
      if f.head = e.head && f.tail = e.tail then ⟨f.head, e.rel, f.tail⟩ else f)
  else es ++ [e]

/-- The common body of every attribute-processing branch: ensure the
attribute node, add the labeled edge from the recipe node, and append
the stringified triple. -/
def addAttrEdge (st : BuildState) (recipeNode : NodeId) (relation : String)
    (node_id : NodeId) : BuildState :=
  { nodes := addNode st.nodes node_id
    edges := addEdge st.edges ⟨recipeNode, relation, node_id⟩
    triples := st.triples ++ [(strNode recipeNode, relation, strNode node_id)] }

/-- A recipe record restricted to the eight attribute columns the graph
builder reads (`None` models a missing value). -/
structure RecipeDetails where
  Cooking_Method : Option String := none
  servings_bin : Option String := none
  cook_time : Option String := none
  CuisineRegion : Option String := none
  Diet_Types : Option String := none
  meal_type : Option String := none
  Healthy_Type : Option String := none
  BestUsdaIngredientName : Option String := none
deriving DecidableEq, Repr

/-- The four single-valued attribute columns of `attribute_mappings`. -/
inductive SingleCol
  | Cooking_Method | servings_bin | cook_time | CuisineRegion
deriving DecidableEq, Repr

/-- `attribute_mappings`: (relation, node type) for each single-valued
column. -/
def singleColRel : SingleCol → String × String
  | .Cooking_Method => ("usesCookingMethod", "cooking_method")
  | .servings_bin => ("hasServingsBin", "servings_bin")
  | .cook_time => ("hasCookTime", "cook_time")
  | .CuisineRegion => ("hasCuisineRegion", "cuisine_region")

def getSingle (d : RecipeDetails) : SingleCol → Option String
  | .Cooking_Method => d.Cooking_Method
  | .servings_bin => d.servings_bin
  | .cook_time => d.cook_time
  | .CuisineRegion => d.CuisineRegion

def setSingle (d : RecipeDetails) (c : SingleCol) (v : Option String) :
    RecipeDetails :=
  match c with
  | .Cooking_Method => { d with Cooking_Method := v }
  | .servings_bin => { d with servings_bin := v }
  | .cook_time => { d with cook_time := v }
  | .CuisineRegion => { d with CuisineRegion := v }

/-- The guard `element and element != UNKNOWN_PLACEHOLDER and
str(element).strip() != ""` (Python truthiness: `None` and `""` are
falsy). -/
def passesGuard (v : Option String) : Bool :=
  match v with
  | none => false
  | some s => s ≠ "" && s ≠ UNKNOWN_PLACEHOLDER && pyStrip s ≠ ""

/-- Processing of one single-valued attribute column of one recipe. -/
def processSingleAttr (recipeNode : NodeId) (d : RecipeDetails)
    (st : BuildState) (c : SingleCol) : BuildState :=
  let (relation, node_type) := singleColRel c
  match getSingle d c with
  | none => st
  | some element =>
    if element ≠ "" ∧ element ≠ UNKNOWN_PLACEHOLDER ∧ pyStrip element ≠ "" then
      let element_clean := pyStrip element  -- preserve original casing
      addAttrEdge st recipeNode relation (node_type, element_clean)
    else st

/-- Processing of the `Healthy_Type` column: split on comma, map each
element to its relation with `map_health_attribute`. -/
def processHealthy (recipeNode : NodeId) (st : BuildState)
    (v : Option String) : BuildState :=
  match v with
  | none => st
  | some healthy =>
    if healthy ≠ "" ∧ healthy ≠ UNKNOWN_PLACEHOLDER ∧ pyStrip healthy ≠ "" then
      (split_and_clean healthy ',').foldl (fun st element =>
        if element ≠ "" then
          addAttrEdge st recipeNode (map_health_attribute element)
            ("health_attribute", element)
        else st) st
    else st

/-- Processing of one list-valued attribute column (`Diet_Types`,
`meal_type`). -/
def processListAttr (recipeNode : NodeId) (relation node_type : String)
    (delimiter : Char) (st : BuildState) (v : Option String) : BuildState :=
  match v with
  | none => st
  | some value =>
    if value ≠ "" ∧ value ≠ UNKNOWN_PLACEHOLDER ∧ pyStrip value ≠ "" then
      (split_and_clean value delimiter).foldl (fun st element =>
        if element ≠ "" then
          addAttrEdge st recipeNode relation (node_type, element)
        else st) st
    else st

/-- Processing of the `BestUsdaIngredientName` column: split on
semicolon; ingredient node values are lowercased. -/
def processIngredients (recipeNode : NodeId) (st : BuildState)
    (v : Option String) : BuildState :=
  match v with
  | none => st
  | some best_usda =>
    if best_usda ≠ "" ∧ best_usda ≠ UNKNOWN_PLACEHOLDER ∧ pyStrip best_usda ≠ "" then
      (split_and_clean best_usda ';').foldl (fun st ingredient =>
        if ingredient ≠ "" then
          addAttrEdge st recipeNode "containsIngredient"
            ("ingredient", pyLower ingredient)
        else st) st
    else st

/-- The body of the `for recipe_id, details in recipes.items()` loop. -/
def processRecipe (st : BuildState) (r : String × RecipeDetails) : BuildState :=
  let recipeNode : NodeId := ("recipe", r.1)
  let st := { st with nodes := addNode st.nodes recipeNode }
  let st := [SingleCol.Cooking_Method, .servings_bin, .cook_time,
    .CuisineRegion].foldl (processSingleAttr recipeNode r.2) st
  let st := processHealthy recipeNode st r.2.Healthy_Type
  let st := processListAttr recipeNode "hasDietType" "diet_type" ',' st r.2.Diet_Types
  let st := processListAttr recipeNode "isForMealType" "meal_type" ',' st r.2.meal_type
  processIngredients recipeNode st r.2.BestUsdaIngredientName

/-- `create_graph_and_triples`: build the knowledge graph and the flat
triples list from the recipe mapping (modelled as an association list in
iteration order). -/
def create_graph_and_triples (recipes : List (String × RecipeDetails)) :
    BuildState :=
  recipes.foldl processRecipe ⟨[], [], []⟩

/-! ## Triple Canonicalizer (`model.py`) -/

/-- Scan a single-quoted string component up to its closing quote;
the parsed component itself contains no quote. -/
def takeStr : List Char → Option (List Char × List Char)
  | [] => none
  | c :: cs =>
    if c = '\'' then some ([], cs)
    else (takeStr cs).map (fun r => (c :: r.1, r.2))

/-- `ast.literal_eval` restricted to the literals the graph builder
emits for its nodes: a parenthesized pair of two single-quoted strings,
`('a', 'b')`.  Any other input is a parse failure (Python would also
succeed on other literal shapes, none of which occur in the
repository's triples file). -/
def parseTupleLit (s : String) : Option (String × String) :=
  match s.data with
  | c0 :: c1 :: rest =>
    if c0 = '(' ∧ c1 = '\'' then
      (takeStr rest).bind (fun a =>
        match a.2 with
        | c2 :: c3 :: c4 :: rest2 =>
          if c2 = ',' ∧ c3 = ' ' ∧ c4 = '\'' then
            (takeStr rest2).bind (fun b =>
              if b.2 = [')'] then some (String.mk a.1, String.mk b.1) else none)
          else none
        | _ => none)
    else none
  | _ => none

/-- `tuple_to_canonical`: convert `"('meal_type', 'dinner')"` to
`"meal_type_dinner"`; on any parse failure, log and return the input
unchanged. -/
def tuple_to_canonical (s : String) : String :=
  match parseTupleLit s with
  | some t => t.1 ++ "_" ++ t.2
  | none => s

/-- The canonical flat string encoding of a node identifier: type and
value joined by an underscore (the Triple Canonicalizer contract; equal
to `tuple_to_canonical (strNode n)` for quote-free values, proved
below). -/
def canonicalOfNode (n : NodeId) : String :=
  n.1 ++ "_" ++ n.2

/-! ## Criteria Translator (`map_user_input_to_criteria`) -/

/-- The eight attribute categories a criterion can come from. -/
inductive Category
  | cooking_method | servings_bin | diet_type | meal_type
  | cook_time | health_attribute | cuisine_region | ingredient
deriving DecidableEq, Repr

/-- The tail-entity string the translator builds for a raw value of
each category (the `f"..._{...}"` expressions of
`map_user_input_to_criteria`; only the free-text cooking method is
lowercased). -/
def translatorTail : Category → String → String
  | .cooking_method, v => "cooking_method_" ++ pyLower (pyStrip v)
  | .servings_bin, v => "servings_bin_" ++ pyStrip v
  | .diet_type, v => "diet_type_" ++ pyStrip v
  | .meal_type, v => "meal_type_" ++ pyStrip v
  | .cook_time, v => "cook_time_" ++ pyStrip v
  | .health_attribute, v => "health_attribute_" ++ pyStrip v
  | .cuisine_region, v => "cuisine_region_" ++ pyStrip v
  | .ingredient, v => "ingredient_" ++ pyStrip v

/-- The node identifier the graph builder creates for the same raw
value of each category (single-valued columns trim the value; split
elements arrive already trimmed, so a raw element value is trimmed
either way; only ingredient values are lowercased). -/
def builderNode : Category → String → NodeId
  | .cooking_method, v => ("cooking_method", pyStrip v)
  | .servings_bin, v => ("servings_bin", pyStrip v)
  | .diet_type, v => ("diet_type", pyStrip v)
  | .meal_type, v => ("meal_type", pyStrip v)
  | .cook_time, v => ("cook_time", pyStrip v)
  | .health_attribute, v => ("health_attribute", pyStrip v)
  | .cuisine_region, v => ("cuisine_region", pyStrip v)
  | .ingredient, v => ("ingredient", pyLower (pyStrip v))

/-- `weights.get(key, 1.0)`. -/
def weightFor (weights : List (String × ℚ)) (key : String) : ℚ :=
  match weights.find? (fun p => p.1 = key) with
  | some p => p.2
  | none => 1.0

/-- A scoring criterion: (tail entity string, relation, weight). -/
abbrev Criterion := String × String × ℚ

/-- `map_user_input_to_criteria`: convert user input into (tail,
relation, weight) criteria, in the order the code appends them.
Optional fields are `None` or empty-string falsy, exactly as in
Python. -/
def map_user_input_to_criteria
    (cooking_method servings_bin : Option String)
    (diet_types meal_type : List String)
    (cook_time : Option String)
    (health_types : List String)
    (cuisine_region : Option String)
    (ingredients : List String)
    (weights : List (String × ℚ)) : List Criterion :=
  (match cooking_method with
   | some cm =>
     if cm ≠ "" then
       [(translatorTail .cooking_method cm, "usesCookingMethod",
         weightFor weights "cooking_method")]
     else []
   | none => []) ++
  (match servings_bin with
   | some sb =>
     if sb ≠ "" then
       [(translatorTail .servings_bin sb, "hasServingsBin",
         weightFor weights "servings_bin")]
     else []
   | none => []) ++
  diet_types.map (fun dt =>
    (translatorTail .diet_type dt, "hasDietType", weightFor weights "diet_types")) ++
  meal_type.map (fun mt =>
    (translatorTail .meal_type mt, "isForMealType", weightFor weights "meal_type")) ++
  (match cook_time with
   | some ct =>
     if ct ≠ "" then
       [(translatorTail .cook_time ct, "hasCookTime", weightFor weights "cook_time")]
     else []
   | none => []) ++
  health_types.map (fun ht =>
    (translatorTail .health_attribute ht, map_health_attribute (pyStrip ht),
     weightFor weights "healthy_type")) ++
  (match cuisine_region with
   | some cr =>
     if cr ≠ "" then
       [(translatorTail .cuisine_region cr, "hasCuisineRegion",
         weightFor weights "cuisine_region")]
     else []
   | none => []) ++
  ingredients.map (fun ing =>
    (translatorTail .ingredient ing, "containsIngredient",
     weightFor weights "ingredients"))

/-! ## Ranking Aggregator (`get_matching_recipes`) -/

/-- A per-criterion scored candidate list: (head entity label, score)
rows of a prediction data frame. -/
abbrev PredList := List (String × ℚ)

/-- Binary minimum of two rational scores. -/
def qmin (a b : ℚ) : ℚ := if a ≤ b then a else b

/-- Binary maximum of two rational scores. -/
def qmax (a b : ℚ) : ℚ := if a ≤ b then b else a

/-- `_normalize_scores`: min-max normalization of the score column
(`sklearn.MinMaxScaler` with the default `(0, 1)` feature range; a
zero data range is replaced by 1, so a constant column normalizes to
all zeros).  An empty frame stays empty. -/
def normalize_scores (preds : PredList) : PredList :=
  match preds with
  | [] => []
  | p :: ps =>
    let mn := (ps.map Prod.snd).foldl qmin p.2
    let mx := (ps.map Prod.snd).foldl qmax p.2
    let scale := if mx = mn then 1 else mx - mn
    (p :: ps).map (fun q => (q.1, (q.2 - mn) / scale))

/-- The per-criterion pipeline of the `for tail, relation, weight in
criteria` loop: query the adapter, normalize, weight.  The adapter
models `predict_target(model=model, relation=·, tail=·, ...)` and is
applied as `adapter relation tail`. -/
def criterionPreds (adapter : String → String → PredList)
    (c : Criterion) : PredList :=
  (normalize_scores (adapter c.2.1 c.1)).map (fun q => (q.1, q.2 * c.2.2))

/-- The score attached to a candidate in one prediction list (the
first row carrying that head label). -/
def lookupScore (k : String) : PredList → Option ℚ
  | [] => none
  | p :: ps => if p.1 = k then some p.2 else lookupScore k ps

/-- The head labels (key column) of a prediction list. -/
def predKeys (l : PredList) : List String := l.map Prod.fst

/-- `merge(other, on="head_label", how="outer")` followed by
`fillna(0)` addition of the two score columns.  (Pandas sorts the key
column of an outer join; row order only influences tie-breaking in the
final score sort, which no verified property depends on, so rows are
kept in left-then-remaining-right order.) -/
def mergeOuter (a b : PredList) : PredList :=
  a.map (fun p => (p.1, p.2 + (lookupScore p.1 b).getD 0)) ++
  (b.filter (fun q => (lookupScore q.1 a).isNone)).map (fun q => (q.1, 0 + q.2))

/-- `merge(other, on="head_label", how="inner")` followed by addition
of the two score columns; left row order is preserved. -/
def mergeInner (a b : PredList) : PredList :=
  a.filterMap (fun p => (lookupScore p.1 b).map (fun s => (p.1, p.2 + s)))

/-- The merge loop: start from `all_preds[0]` and fold the rest in
with the union (`flexible`) or intersection merge. -/
def mergeAll (flexible : Bool) : List PredList → PredList
  | [] => []
  | p :: rest =>
    rest.foldl (fun m o => if flexible then mergeOuter m o else mergeInner m o) p

/-- Descending insertion by score; among equal scores the earlier row
stays first.  (`sort_values(ascending=False)` uses an unstable
quicksort; no verified property depends on tie order.) -/
def insertDesc (p : String × ℚ) : PredList → PredList
  | [] => [p]
  | q :: qs => if q.2 < p.2 then p :: q :: qs else q :: insertDesc p qs

def sortDesc (l : PredList) : PredList := l.foldr insertDesc []

/-- `parse_recipe_id`: `node_str.split("recipe_", 1)[1]`.  Only
applied to labels that passed the `startswith("recipe_")` filter; on
other labels Python raises `IndexError`, modelled by returning the
input unchanged (the branch is unreachable in `get_matching_recipes`). -/
def parse_recipe_id (node_str : String) : String :=
  match dropAfterFirst "recipe_".data node_str.data with
  | some rest => String.mk rest
  | none => node_str

/-- The merge of all per-criterion weighted candidate lists. -/
def mergedCandidates (adapter : String → String → PredList)
    (criteria : List Criterion) (flexible : Bool) : PredList :=
  mergeAll flexible (criteria.map (criterionPreds adapter))

/-- `get_matching_recipes`, instrumented with the list of
`(relation, tail)` adapter invocations it performs, in call order. -/
def get_matching_recipes_traced (adapter : String → String → PredList)
    (criteria : List Criterion) (top_k : ℕ) (flexible : Bool) :
    List String × List (String × String) :=
  if criteria = [] then ([], [])
  else
    let merged := mergedCandidates adapter criteria flexible
    let merged := merged.filter (fun p => pyStartsWith p.1 "recipe_")
    let merged := (sortDesc merged).take top_k
    (merged.map (fun p => parse_recipe_id p.1),
     criteria.map (fun c => (c.2.1, c.1)))

/-- `get_matching_recipes`: the returned recipe identifier list. -/
def get_matching_recipes (adapter : String → String → PredList)
    (criteria : List Criterion) (top_k : ℕ) (flexible : Bool) : List String :=
  (get_matching_recipes_traced adapter criteria top_k flexible).1

/-- Stub adapter for the merge-semantics witness: two candidate lists
selected by the queried tail entity. -/
def unionAdapter : String → String → PredList := fun _ tail =>
  if tail = "t1" then [("recipe_1", 1), ("recipe_2", 2)]
  else [("recipe_2", 4), ("recipe_3", 6)]

/-- The relation label carried by every edge into a given tail node:
each attribute category's node type has a fixed relation, and health
attribute nodes determine theirs through `map_health_attribute`.  (Not
part of the Python source; used to state that edge relations are a
function of the tail node.) -/
def relOfNode (n : NodeId) : String :=
  if n.1 = "cooking_method" then "usesCookingMethod"
  else if n.1 = "servings_bin" then "hasServingsBin"
  else if n.1 = "cook_time" then "hasCookTime"
  else if n.1 = "cuisine_region" then "hasCuisineRegion"
  else if n.1 = "health_attribute" then map_health_attribute n.2
  else if n.1 = "diet_type" then "hasDietType"
  else if n.1 = "meal_type" then "isForMealType"
  else "containsIngredient"

/-- The stringified triple derived from an edge, exactly as appended by
`addAttrEdge`. -/
def strTriple (e : Edge) : Triple :=
  (strNode e.head, e.rel, strNode e.tail)

/-- The build-state invariant tying edges and triples together: every
edge relation is determined by its tail node, every edge has its
stringification among the triples, and every triple is the
stringification of some edge. -/
def EdgeTripleInv (st : BuildState) : Prop :=
  (∀ e ∈ st.edges, e.rel = relOfNode e.tail) ∧
  (∀ e ∈ st.edges, strTriple e ∈ st.triples) ∧
  (∀ t ∈ st.triples, ∃ e ∈ st.edges, strTriple e = t)

/-! ## Theorems

Rational arithmetic must evaluate inside `decide` proofs about concrete
scores, so the irreducibility veil on the `Rat` operations is lifted for
the remainder of this file. -/

attribute [local semireducible] Rat.add Rat.sub Rat.mul Rat.inv Rat.ofScientific

/-! ## C1: the saturated-fat routing of `map_health_attribute` -/

/-- C1 (counterexample): the string `"saturated fat"` (with a space,
as the spec's own example writes it) contains both `"saturated"` and
`"fat"` case-insensitively, yet `map_health_attribute` returns the
catch-all `"HasHealthAttribute"`, not `"HasSaturatedFatLevel"`: the
code's fourth check looks for the substring `"saturated_fat"` with an
underscore. -/
theorem map_health_attribute_space_counterexample :
    pyContains (pyLower "saturated fat") "saturated" = true ∧
    pyContains (pyLower "saturated fat") "fat" = true ∧
    map_health_attribute "saturated fat" = "HasHealthAttribute" ∧
    map_health_attribute "saturated fat" ≠ "HasSaturatedFatLevel" := by
  decide

/-- C1 (amended): for every input containing `"saturated"` and `"fat"`
case-insensitively, `map_health_attribute` never returns
`"HasFatLevel"`; it returns `"HasSaturatedFatLevel"` exactly when the
lowercased input contains the substring `"saturated_fat"` (with the
underscore) and contains neither `"protein"` nor `"carb"`. -/
theorem map_health_attribute_saturated (e : String)
    (hsat : pyContains (pyLower e) "saturated" = true)
    (hfat : pyContains (pyLower e) "fat" = true) :
    map_health_attribute e ≠ "HasFatLevel" ∧
    (map_health_attribute e = "HasSaturatedFatLevel" ↔
      (pyContains (pyLower e) "saturated_fat" = true ∧
       pyContains (pyLower e) "protein" = false ∧
       pyContains (pyLower e) "carb" = false)) := by
  unfold map_health_attribute
  simp only [hsat, Bool.not_true, Bool.and_false, Bool.false_eq_true,
    if_false]
  split_ifs with hp hc hsf hcal hsod hsug hfib hchol <;> simp_all

/-- C1 (witness): the amended theorem applied at `"saturated_fat"`. -/
theorem map_health_attribute_saturated_witness :
    map_health_attribute "saturated_fat" ≠ "HasFatLevel" ∧
    (map_health_attribute "saturated_fat" = "HasSaturatedFatLevel" ↔
      (pyContains (pyLower "saturated_fat") "saturated_fat" = true ∧
       pyContains (pyLower "saturated_fat") "protein" = false ∧
       pyContains (pyLower "saturated_fat") "carb" = false)) :=
  map_health_attribute_saturated "saturated_fat" (by decide) (by decide)

/-! ## C3: translator tails versus builder node encodings -/

/-- C3 (counterexample): for the ingredient raw value `"Tomato"` the
translator's tail is `"ingredient_Tomato"` (the translator only trims,
assuming lowercased input), while the graph builder lowercases
ingredient values, whose canonical encoding is `"ingredient_tomato"`;
symmetrically, for the cooking method `"Baking"` the translator
lowercases to `"cooking_method_baking"` while the builder preserves
the casing, encoding `"cooking_method_Baking"`. -/
theorem translator_builder_ingredient_counterexample :
    translatorTail Category.ingredient "Tomato" = "ingredient_Tomato" ∧
    canonicalOfNode (builderNode Category.ingredient "Tomato") = "ingredient_tomato" ∧
    translatorTail Category.ingredient "Tomato" ≠
      canonicalOfNode (builderNode Category.ingredient "Tomato") ∧
    translatorTail Category.cooking_method "Baking" = "cooking_method_baking" ∧
    canonicalOfNode (builderNode Category.cooking_method "Baking") = "cooking_method_Baking" ∧
    translatorTail Category.cooking_method "Baking" ≠
      canonicalOfNode (builderNode Category.cooking_method "Baking") := by
  decide

/-- Auxiliary: appending on the left of a string is cancellable. -/
theorem string_append_cancel_left (a x y : String) (h : a ++ x = a ++ y) :
    x = y := by
  have hd : a.data ++ x.data = a.data ++ y.data := by
    rw [String.ext_iff] at h
    simpa using h
  rw [String.ext_iff]
  exact List.append_cancel_left hd

/-- C3 (amended): for every attribute value, the translator's tail
equals the canonical encoding of the builder's node for the same raw
value, except in the two free-text categories with asymmetric case
handling — cooking method (lowercased by the translator only) and
ingredient (lowercased by the builder only) — where equality holds
exactly when the trimmed value is already fully lowercase. -/
theorem translator_tail_eq_builder_canonical (c : Category) (v : String) :
    translatorTail c v = canonicalOfNode (builderNode c v) ↔
      (c = Category.cooking_method ∨ c = Category.ingredient →
        pyLower (pyStrip v) = pyStrip v) := by
  cases c with
  | cooking_method =>
    constructor
    · intro h _
      have hC : ("cooking_method_" : String) ++ pyLower (pyStrip v) =
          ("cooking_method_" : String) ++ pyStrip v := h
      exact string_append_cancel_left _ _ _ hC
    · intro h
      show "cooking_method_" ++ pyLower (pyStrip v) = _
      rw [h (Or.inl rfl)]
      rfl
  | ingredient =>
    constructor
    · intro h _
      have hC : ("ingredient_" : String) ++ pyStrip v =
          ("ingredient_" : String) ++ pyLower (pyStrip v) := h
      exact (string_append_cancel_left _ _ _ hC).symm
    · intro h
      show _ = "ingredient" ++ "_" ++ pyLower (pyStrip v)
      rw [h (Or.inr rfl)]
      rfl
  | servings_bin => exact ⟨fun _ hc => absurd hc (by decide), fun _ => rfl⟩
  | diet_type => exact ⟨fun _ hc => absurd hc (by decide), fun _ => rfl⟩
  | meal_type => exact ⟨fun _ hc => absurd hc (by decide), fun _ => rfl⟩
  | cook_time => exact ⟨fun _ hc => absurd hc (by decide), fun _ => rfl⟩
  | health_attribute => exact ⟨fun _ hc => absurd hc (by decide), fun _ => rfl⟩
  | cuisine_region => exact ⟨fun _ hc => absurd hc (by decide), fun _ => rfl⟩

/-- C3 (witness): the biconditional instantiated at the lowercase
ingredient `"tomato"` and at a cased cuisine region (a category with
no lowercasing on either side). -/
theorem translator_tail_eq_builder_canonical_witness :
    (translatorTail Category.ingredient "tomato" =
        canonicalOfNode (builderNode Category.ingredient "tomato") ↔
      (Category.ingredient = Category.cooking_method ∨
          Category.ingredient = Category.ingredient →
        pyLower (pyStrip "tomato") = pyStrip "tomato")) ∧
    (translatorTail Category.cuisine_region " South Asian " =
        canonicalOfNode (builderNode Category.cuisine_region " South Asian ") ↔
      (Category.cuisine_region = Category.cooking_method ∨
          Category.cuisine_region = Category.ingredient →
        pyLower (pyStrip " South Asian ") = pyStrip " South Asian ")) :=
  ⟨translator_tail_eq_builder_canonical Category.ingredient "tomato",
   translator_tail_eq_builder_canonical Category.cuisine_region " South Asian "⟩

/-! ## C7: the end-to-end ranking example -/

/-- C7: with the single criterion `("meal_type_dessert",
"isForMealType", 1.0)`, `flexible = false`, `K = 2`, and a stub adapter
returning `[("recipe_10", 0.9), ("recipe_7", 0.5), ("ingredient_sugar",
0.8)]`, `get_matching_recipes` returns exactly `["10", "7"]`. -/
theorem get_matching_recipes_dessert_example :
    get_matching_recipes
      (fun _ _ => [("recipe_10", 0.9), ("recipe_7", 0.5), ("ingredient_sugar", 0.8)])
      [("meal_type_dessert", "isForMealType", 1.0)] 2 false = ["10", "7"] := by
  decide

/-! ## C8: empty criteria and `top_k = 0` -/

/-- C8: with an empty criteria list `get_matching_recipes` returns the
empty list and performs no adapter call (the traced variant records
every `predict_target` invocation); and with `top_k = 0` the result is
empty for every criteria list. -/
theorem get_matching_recipes_empty_guard
    (adapter : String → String → PredList) (criteria : List Criterion)
    (top_k : ℕ) (flexible : Bool) :
    (criteria = [] →
      get_matching_recipes_traced adapter criteria top_k flexible = ([], [])) ∧
    get_matching_recipes adapter criteria 0 flexible = [] := by
  constructor
  · intro h
    subst h
    rfl
  · unfold get_matching_recipes get_matching_recipes_traced
    by_cases h : criteria = []
    · simp [h]
    · simp [h]

/-- C8 (witness): the guard theorem applied at an empty criteria list
and at `top_k = 0` with a nonempty criteria list. -/
theorem get_matching_recipes_empty_guard_witness :
    get_matching_recipes_traced (fun _ _ => [("recipe_1", 1)]) [] 5 true = ([], []) ∧
    get_matching_recipes (fun _ _ => [("recipe_1", 1)])
      [("meal_type_dessert", "isForMealType", 1)] 0 false = [] :=
  ⟨(get_matching_recipes_empty_guard (fun _ _ => [("recipe_1", 1)]) [] 5 true).1 rfl,
   (get_matching_recipes_empty_guard (fun _ _ => [("recipe_1", 1)])
      [("meal_type_dessert", "isForMealType", 1)] 0 false).2⟩

/-! ## C10: constant raw scores normalize to zero -/

/-- Auxiliary: a fold of `min` over a constant list stays at the
constant. -/
theorem foldl_min_const (c : ℚ) (l : List ℚ) (h : ∀ x ∈ l, x = c) :
    l.foldl qmin c = c := by
  induction l with
  | nil => rfl
  | cons x xs ih =>
    have hx : x = c := h x (List.mem_cons_self x xs)
    have : ∀ y ∈ xs, y = c := fun y hy => h y (List.mem_cons_of_mem x hy)
    simp [hx, qmin, ih this]

/-- Auxiliary: a fold of `max` over a constant list stays at the
constant. -/
theorem foldl_max_const (c : ℚ) (l : List ℚ) (h : ∀ x ∈ l, x = c) :
    l.foldl qmax c = c := by
  induction l with
  | nil => rfl
  | cons x xs ih =>
    have hx : x = c := h x (List.mem_cons_self x xs)
    have : ∀ y ∈ xs, y = c := fun y hy => h y (List.mem_cons_of_mem x hy)
    simp [hx, qmax, ih this]

/-- C10: when every raw score returned by the adapter for one
criterion is the same value — in particular when the result has a
single candidate — the min-max data range is zero, `normalize_scores`
(with sklearn's zero-range guard) sends every score to 0, and so the
criterion's weighted score is 0 for every one of its candidates. -/
theorem criterion_constant_scores_zero
    (adapter : String → String → PredList) (tail rel : String) (w c : ℚ)
    (h : ∀ p ∈ adapter rel tail, p.2 = c) :
    (∀ p ∈ normalize_scores (adapter rel tail), p.2 = 0) ∧
    (∀ p ∈ criterionPreds adapter (tail, rel, w), p.2 = 0) := by
  have key : ∀ p ∈ normalize_scores (adapter rel tail), p.2 = 0 := by
    intro p hp
    unfold normalize_scores at hp
    cases hl : adapter rel tail with
    | nil => rw [hl] at hp; simp at hp
    | cons q qs =>
      rw [hl] at hp
      simp only [List.mem_map] at hp
      obtain ⟨r, hr, hpr⟩ := hp
      have hall : ∀ x ∈ (q :: qs).map Prod.snd, x = c := by
        intro x hx
        simp only [List.mem_map] at hx
        obtain ⟨s, hs, hsx⟩ := hx
        rw [← hsx]
        exact h s (hl ▸ hs)
      have hq : q.2 = c := h q (hl ▸ List.mem_cons_self q qs)
      have hmin : (qs.map Prod.snd).foldl qmin q.2 = c := by
        rw [hq]
        exact foldl_min_const c _ (fun x hx =>
          hall x (List.mem_cons_of_mem _ hx))
      have hmax : (qs.map Prod.snd).foldl qmax q.2 = c := by
        rw [hq]
        exact foldl_max_const c _ (fun x hx =>
          hall x (List.mem_cons_of_mem _ hx))
      have hr2 : r.2 = c := h r (hl ▸ hr)
      rw [← hpr]
      simp [hmin, hmax, hr2]
  refine ⟨key, ?_⟩
  intro p hp
  unfold criterionPreds at hp
  simp only [List.mem_map] at hp
  obtain ⟨q, hq, hqp⟩ := hp
  rw [← hqp]
  simp [key q hq]

/-- C10 (witness): a singleton adapter result; its only normalized and
weighted scores are 0. -/
theorem criterion_constant_scores_zero_witness :
    (∀ p ∈ normalize_scores ((fun _ _ => [("recipe_1", (5 : ℚ))]) "isForMealType" "meal_type_dessert"), p.2 = 0) ∧
    (∀ p ∈ criterionPreds (fun _ _ => [("recipe_1", (5 : ℚ))])
        ("meal_type_dessert", "isForMealType", 3), p.2 = 0) :=
  criterion_constant_scores_zero (fun _ _ => [("recipe_1", (5 : ℚ))])
    "meal_type_dessert" "isForMealType" 3 5 (by decide)

/-! ## C9: total canonicalization with logged fallback -/

/-- Auxiliary: scanning a quote-free component followed by its closing
quote returns exactly that component and the remainder. -/
theorem takeStr_append (l : List Char) (h : '\'' ∉ l) (rest : List Char) :
    takeStr (l ++ '\'' :: rest) = some (l, rest) := by
  induction l with
  | nil => simp [takeStr]
  | cons c cs ih =>
    have hc : c ≠ '\'' := fun hc => h (hc ▸ List.mem_cons_self c cs)
    have hcs : '\'' ∉ cs := fun hm => h (List.mem_cons_of_mem c hm)
    simp [takeStr, hc, ih hcs]

/-- C9: `tuple_to_canonical` is total: on inputs that parse as a
(type, value) tuple literal it joins the two components with an
underscore, on any parse failure it returns the input unchanged, and it
round-trips the builder's node rendering `str(node)` back to the
canonical `type_value` string for quote-free components. -/
theorem tuple_to_canonical_spec (s : String) (n : NodeId)
    (h1 : '\'' ∉ n.1.data) (h2 : '\'' ∉ n.2.data) :
    (parseTupleLit s = none → tuple_to_canonical s = s) ∧
    (∀ a b, parseTupleLit s = some (a, b) → tuple_to_canonical s = a ++ "_" ++ b) ∧
    parseTupleLit (strNode n) = some (n.1, n.2) ∧
    tuple_to_canonical (strNode n) = canonicalOfNode n := by
  have hdata : (strNode n).data =
      '(' :: '\'' :: (n.1.data ++ '\'' :: ',' :: ' ' :: '\'' ::
        (n.2.data ++ '\'' :: [')'])) := by
    simp [strNode]
  have hparse : parseTupleLit (strNode n) = some (n.1, n.2) := by
    unfold parseTupleLit
    rw [hdata]
    simp [takeStr_append n.1.data h1, takeStr_append n.2.data h2]
  refine ⟨?_, ?_, hparse, ?_⟩
  · intro h
    unfold tuple_to_canonical
    rw [h]
  · intro a b h
    unfold tuple_to_canonical
    rw [h]
  · unfold tuple_to_canonical
    rw [hparse]
    rfl

/-- C9 (witness): a malformed string falls back unchanged, and the
rendering of the node `("meal_type", "dinner")` canonicalizes to
`"meal_type_dinner"`. -/
theorem tuple_to_canonical_spec_witness :
    tuple_to_canonical "not a tuple" = "not a tuple" ∧
    tuple_to_canonical (strNode ("meal_type", "dinner")) =
      canonicalOfNode ("meal_type", "dinner") :=
  ⟨(tuple_to_canonical_spec "not a tuple" ("meal_type", "dinner")
      (by decide) (by decide)).1 (by decide),
   (tuple_to_canonical_spec "not a tuple" ("meal_type", "dinner")
      (by decide) (by decide)).2.2.2⟩

/-! ## C2: union / intersection merge semantics -/

/-- Auxiliary: key lookup across a concatenation searches left first. -/
theorem lookupScore_append (k : String) (a b : PredList) :
    lookupScore k (a ++ b) =
      match lookupScore k a with
      | some v => some v
      | none => lookupScore k b := by
  induction a with
  | nil => rfl
  | cons p ps ih =>
    by_cases hp : p.1 = k <;> simp [lookupScore, hp, ih]

/-- Auxiliary: key lookup through a key-preserving score adjustment. -/
theorem lookupScore_mapAdd (k : String) (a : PredList) (f : String → ℚ) :
    lookupScore k (a.map (fun p => (p.1, p.2 + f p.1))) =
      (lookupScore k a).map (fun x => x + f k) := by
  induction a with
  | nil => rfl
  | cons p ps ih =>
    by_cases hp : p.1 = k
    · simp [lookupScore, hp]
    · simp [lookupScore, hp, ih]

/-- Auxiliary: key lookup among the right rows whose key is absent on
the left. -/
theorem lookupScore_filterNone (k : String) (a b : PredList) :
    lookupScore k (b.filter (fun q => (lookupScore q.1 a).isNone)) =
      match lookupScore k a with
      | some _ => none
      | none => lookupScore k b := by
  induction b with
  | nil => cases lookupScore k a <;> rfl
  | cons q qs ih =>
    by_cases hq : q.1 = k
    · subst hq
      cases ha : lookupScore q.1 a with
      | none => simp [List.filter_cons, ha, lookupScore]
      | some x => simp [List.filter_cons, ha, lookupScore, ih]
    · cases hqa : lookupScore q.1 a with
      | none =>
        cases ha : lookupScore k a <;>
          simp [List.filter_cons, hqa, lookupScore, hq, ih, ha]
      | some x =>
        cases ha : lookupScore k a <;>
          simp [List.filter_cons, hqa, lookupScore, hq, ih, ha]

/-- Auxiliary: the outer (union) merge adds scores, treating a missing
side as 0. -/
theorem lookupScore_mergeOuter (k : String) (a b : PredList) :
    lookupScore k (mergeOuter a b) =
      match lookupScore k a, lookupScore k b with
      | none, none => none
      | some x, none => some (x + 0)
      | none, some y => some (0 + y)
      | some x, some y => some (x + y) := by
  unfold mergeOuter
  rw [lookupScore_append, lookupScore_mapAdd k a (fun k2 => (lookupScore k2 b).getD 0)]
  have hmap : ((b.filter (fun q => (lookupScore q.1 a).isNone)).map
      (fun q => (q.1, 0 + q.2))) = b.filter (fun q => (lookupScore q.1 a).isNone) := by
    simp
  rw [hmap, lookupScore_filterNone]
  cases lookupScore k a <;> cases lookupScore k b <;> simp

/-- Auxiliary: the inner (intersection) merge keeps a key only when
both sides carry it, adding the scores. -/
theorem lookupScore_mergeInner (k : String) (a b : PredList) :
    lookupScore k (mergeInner a b) =
      match lookupScore k a, lookupScore k b with
      | some x, some y => some (x + y)
      | _, _ => none := by
  induction a with
  | nil => cases lookupScore k b <;> rfl
  | cons p ps ih =>
    by_cases hp : p.1 = k
    · subst hp
      cases hb : lookupScore p.1 b with
      | none => simp [mergeInner, lookupScore, hb, List.filterMap_cons] at ih ⊢; simp [ih, hb]
      | some s => simp [mergeInner, lookupScore, hb, List.filterMap_cons]
    · cases hb : lookupScore p.1 b with
      | none =>
        simp only [mergeInner, List.filterMap_cons, hb] at ih ⊢
        simp [ih, lookupScore, hp]
      | some s =>
        simp only [mergeInner, List.filterMap_cons, hb] at ih ⊢
        simp [ih, lookupScore, hp]

/-- Auxiliary: a lookup succeeds exactly on the key column members. -/
theorem lookupScore_isSome (k : String) (l : PredList) :
    (lookupScore k l).isSome ↔ k ∈ predKeys l := by
  induction l with
  | nil => simp [lookupScore, predKeys]
  | cons p ps ih =>
    by_cases hp : p.1 = k
    · simp [lookupScore, predKeys, hp]
    · simp [lookupScore, predKeys, hp, ih, Ne.symm hp]

/-- Auxiliary: the union fold over prediction lists keeps any key
present somewhere, summing scores with absence contributing 0. -/
theorem lookupScore_foldl_outer (k : String) (rest : List PredList) :
    ∀ p : PredList,
      lookupScore k (rest.foldl mergeOuter p) =
        if (lookupScore k p).isSome ∨ ∃ l ∈ rest, (lookupScore k l).isSome then
          some ((lookupScore k p).getD 0 +
            (rest.map (fun l => (lookupScore k l).getD 0)).sum)
        else none := by
  induction rest with
  | nil =>
    intro p
    cases h : lookupScore k p <;> simp [h]
  | cons o rest' ih =>
    intro p
    rw [List.foldl_cons, ih (mergeOuter p o)]
    rw [lookupScore_mergeOuter]
    cases hp : lookupScore k p <;> cases ho : lookupScore k o <;>
      simp [hp, ho, add_assoc, or_assoc]

/-- Auxiliary: the intersection fold keeps only keys present in every
prediction list, summing all scores. -/
theorem lookupScore_foldl_inner (k : String) (rest : List PredList) :
    ∀ p : PredList,
      lookupScore k (rest.foldl mergeInner p) =
        if (lookupScore k p).isSome ∧ ∀ l ∈ rest, (lookupScore k l).isSome then
          some ((lookupScore k p).getD 0 +
            (rest.map (fun l => (lookupScore k l).getD 0)).sum)
        else none := by
  induction rest with
  | nil =>
    intro p
    cases h : lookupScore k p <;> simp [h]
  | cons o rest' ih =>
    intro p
    rw [List.foldl_cons, ih (mergeInner p o)]
    rw [lookupScore_mergeInner]
    cases hp : lookupScore k p <;> cases ho : lookupScore k o <;>
      simp [hp, ho, add_assoc, and_assoc]

/-- C2: with `flexible = true` the merged candidate set of
`get_matching_recipes` is the union of the criteria's candidate sets
and each combined score is the sum of the criterion-wise weighted
scores with absence contributing 0; with `flexible = false` it is the
intersection, with the scores summed over all criteria.  The
duplicate-free key hypothesis records the scope in which the
association-list model of the pandas joins is faithful (`predict_target`
returns one row per entity; pandas joins on duplicated keys would
multiply rows instead). -/
theorem get_matching_merge_semantics
    (adapter : String → String → PredList) (criteria : List Criterion)
    (k : String) (hne : criteria ≠ [])
    (hnodup : ∀ cr ∈ criteria, (predKeys (criterionPreds adapter cr)).Nodup) :
    (k ∈ predKeys (mergedCandidates adapter criteria true) ↔
      ∃ cr ∈ criteria, k ∈ predKeys (criterionPreds adapter cr)) ∧
    (lookupScore k (mergedCandidates adapter criteria true) =
      if ∃ cr ∈ criteria, k ∈ predKeys (criterionPreds adapter cr) then
        some ((criteria.map
          (fun cr => (lookupScore k (criterionPreds adapter cr)).getD 0)).sum)
      else none) ∧
    (k ∈ predKeys (mergedCandidates adapter criteria false) ↔
      ∀ cr ∈ criteria, k ∈ predKeys (criterionPreds adapter cr)) ∧
    (lookupScore k (mergedCandidates adapter criteria false) =
      if ∀ cr ∈ criteria, k ∈ predKeys (criterionPreds adapter cr) then
        some ((criteria.map
          (fun cr => (lookupScore k (criterionPreds adapter cr)).getD 0)).sum)
      else none) := by
  obtain ⟨cr0, crs, rfl⟩ : ∃ cr0 crs, criteria = cr0 :: crs := by
    cases criteria with
    | nil => exact absurd rfl hne
    | cons cr0 crs => exact ⟨cr0, crs, rfl⟩
  clear hne hnodup
  have houter : lookupScore k (mergedCandidates adapter (cr0 :: crs) true) =
      if (lookupScore k (criterionPreds adapter cr0)).isSome ∨
          ∃ l ∈ crs.map (criterionPreds adapter), (lookupScore k l).isSome then
        some ((lookupScore k (criterionPreds adapter cr0)).getD 0 +
          ((crs.map (criterionPreds adapter)).map
            (fun l => (lookupScore k l).getD 0)).sum)
      else none := by
    unfold mergedCandidates mergeAll
    simp only [List.map_cons, if_true]
    exact lookupScore_foldl_outer k (crs.map (criterionPreds adapter)) _
  have hinner : lookupScore k (mergedCandidates adapter (cr0 :: crs) false) =
      if (lookupScore k (criterionPreds adapter cr0)).isSome ∧
          ∀ l ∈ crs.map (criterionPreds adapter), (lookupScore k l).isSome then
        some ((lookupScore k (criterionPreds adapter cr0)).getD 0 +
          ((crs.map (criterionPreds adapter)).map
            (fun l => (lookupScore k l).getD 0)).sum)
      else none := by
    unfold mergedCandidates mergeAll
    simp only [List.map_cons, Bool.false_eq_true, if_false]
    exact lookupScore_foldl_inner k (crs.map (criterionPreds adapter)) _
  have hpres_outer : ((lookupScore k (criterionPreds adapter cr0)).isSome ∨
      ∃ l ∈ crs.map (criterionPreds adapter), (lookupScore k l).isSome) ↔
      ∃ cr ∈ cr0 :: crs, k ∈ predKeys (criterionPreds adapter cr) := by
    simp only [lookupScore_isSome, List.mem_map, List.mem_cons]
    constructor
    · rintro (h | ⟨l, ⟨cr, hcr, rfl⟩, hl⟩)
      · exact ⟨cr0, Or.inl rfl, h⟩
      · exact ⟨cr, Or.inr hcr, hl⟩
    · rintro ⟨cr, hcr | hcr, hk⟩
      · exact Or.inl (hcr ▸ hk)
      · exact Or.inr ⟨criterionPreds adapter cr, ⟨cr, hcr, rfl⟩, hk⟩
  have hpres_inner : ((lookupScore k (criterionPreds adapter cr0)).isSome ∧
      ∀ l ∈ crs.map (criterionPreds adapter), (lookupScore k l).isSome) ↔
      ∀ cr ∈ cr0 :: crs, k ∈ predKeys (criterionPreds adapter cr) := by
    simp only [lookupScore_isSome, List.mem_map, List.mem_cons]
    constructor
    · rintro ⟨h0, hrest⟩ cr (hcr | hcr)
      · exact hcr ▸ h0
      · exact hrest _ ⟨cr, hcr, rfl⟩
    · intro h
      exact ⟨h cr0 (Or.inl rfl),
        fun l ⟨cr, hcr, hl⟩ => hl ▸ h cr (Or.inr hcr)⟩
  have hsum : (lookupScore k (criterionPreds adapter cr0)).getD 0 +
      ((crs.map (criterionPreds adapter)).map
        (fun l => (lookupScore k l).getD 0)).sum =
      ((cr0 :: crs).map
        (fun cr => (lookupScore k (criterionPreds adapter cr)).getD 0)).sum := by
    rw [List.map_cons, List.sum_cons, List.map_map]
    rfl
  constructor
  · rw [← lookupScore_isSome, houter]
    by_cases h : ∃ cr ∈ cr0 :: crs, k ∈ predKeys (criterionPreds adapter cr)
    · rw [if_pos (hpres_outer.mpr h)]
      simpa using h
    · rw [if_neg (fun hc => h (hpres_outer.mp hc))]
      simpa using h
  refine ⟨?_, ?_, ?_⟩
  · rw [houter]
    by_cases h : ∃ cr ∈ cr0 :: crs, k ∈ predKeys (criterionPreds adapter cr)
    · rw [if_pos (hpres_outer.mpr h), if_pos h, hsum]
    · rw [if_neg (fun hc => h (hpres_outer.mp hc)), if_neg h]
  · rw [← lookupScore_isSome, hinner]
    by_cases h : ∀ cr ∈ cr0 :: crs, k ∈ predKeys (criterionPreds adapter cr)
    · rw [if_pos (hpres_inner.mpr h)]
      simpa using h
    · rw [if_neg (fun hc => h (hpres_inner.mp hc))]
      simpa using h
  · rw [hinner]
    by_cases h : ∀ cr ∈ cr0 :: crs, k ∈ predKeys (criterionPreds adapter cr)
    · rw [if_pos (hpres_inner.mpr h), if_pos h, hsum]
    · rw [if_neg (fun hc => h (hpres_inner.mp hc)), if_neg h]

/-- C2 (witness): the merge-semantics theorem applied to two concrete
criteria and the candidate `"recipe_2"`, which appears in both lists. -/
theorem get_matching_merge_semantics_witness :
    ("recipe_2" ∈ predKeys
        (mergedCandidates unionAdapter [("t1", "r", 1), ("t2", "r", 1)] true) ↔
      ∃ cr ∈ [("t1", "r", (1 : ℚ)), ("t2", "r", 1)],
        "recipe_2" ∈ predKeys (criterionPreds unionAdapter cr)) ∧
    (lookupScore "recipe_2"
        (mergedCandidates unionAdapter [("t1", "r", 1), ("t2", "r", 1)] true) =
      if ∃ cr ∈ [("t1", "r", (1 : ℚ)), ("t2", "r", 1)],
          "recipe_2" ∈ predKeys (criterionPreds unionAdapter cr) then
        some (([("t1", "r", (1 : ℚ)), ("t2", "r", 1)].map
          (fun cr => (lookupScore "recipe_2" (criterionPreds unionAdapter cr)).getD 0)).sum)
      else none) ∧
    ("recipe_2" ∈ predKeys
        (mergedCandidates unionAdapter [("t1", "r", 1), ("t2", "r", 1)] false) ↔
      ∀ cr ∈ [("t1", "r", (1 : ℚ)), ("t2", "r", 1)],
        "recipe_2" ∈ predKeys (criterionPreds unionAdapter cr)) ∧
    (lookupScore "recipe_2"
        (mergedCandidates unionAdapter [("t1", "r", 1), ("t2", "r", 1)] false) =
      if ∀ cr ∈ [("t1", "r", (1 : ℚ)), ("t2", "r", 1)],
          "recipe_2" ∈ predKeys (criterionPreds unionAdapter cr) then
        some (([("t1", "r", (1 : ℚ)), ("t2", "r", 1)].map
          (fun cr => (lookupScore "recipe_2" (criterionPreds unionAdapter cr)).getD 0)).sum)
      else none) :=
  get_matching_merge_semantics unionAdapter [("t1", "r", 1), ("t2", "r", 1)]
    "recipe_2" (by decide) (by decide)

/-! ## C5: placeholder and blank single-valued attributes are skipped -/

/-- Auxiliary: reading back an updated single-valued column. -/
theorem getSingle_setSingle (d : RecipeDetails) (c cC : SingleCol) (v : Option String) :
    getSingle (setSingle d c v) cC = if cC = c then v else getSingle d cC := by
  cases c <;> cases cC <;> simp [getSingle, setSingle]

/-- Auxiliary: updating a single-valued column leaves the list-valued
columns untouched. -/
theorem setSingle_other_fields (d : RecipeDetails) (c : SingleCol) (v : Option String) :
    (setSingle d c v).Healthy_Type = d.Healthy_Type ∧
    (setSingle d c v).Diet_Types = d.Diet_Types ∧
    (setSingle d c v).meal_type = d.meal_type ∧
    (setSingle d c v).BestUsdaIngredientName = d.BestUsdaIngredientName := by
  cases c <;> simp [setSingle]

/-- Auxiliary: `processSingleAttr` only looks at its column's value. -/
theorem processSingleAttr_congr (rn : NodeId) (d₁ d₂ : RecipeDetails)
    (st : BuildState) (c : SingleCol) (h : getSingle d₁ c = getSingle d₂ c) :
    processSingleAttr rn d₁ st c = processSingleAttr rn d₂ st c := by
  unfold processSingleAttr
  rw [h]

/-- Auxiliary: a missing, placeholder, or blank-after-trimming value in
a single-valued column leaves the build state unchanged. -/
theorem processSingleAttr_skip (rn : NodeId) (d : RecipeDetails)
    (st : BuildState) (c : SingleCol)
    (h : getSingle d c = none ∨ getSingle d c = some UNKNOWN_PLACEHOLDER ∨
      ∃ s, getSingle d c = some s ∧ pyStrip s = "") :
    processSingleAttr rn d st c = st := by
  rcases h with h | h | ⟨s, h, hs⟩ <;> cases c <;>
    simp_all [processSingleAttr, UNKNOWN_PLACEHOLDER]

/-- Auxiliary: processing one recipe is unchanged when a skipped
single-valued column is removed outright. -/
theorem processRecipe_setSingle_none (rid : String) (d : RecipeDetails)
    (c : SingleCol)
    (h : getSingle d c = none ∨ getSingle d c = some UNKNOWN_PLACEHOLDER ∨
      ∃ s, getSingle d c = some s ∧ pyStrip s = "")
    (st : BuildState) :
    processRecipe st (rid, d) = processRecipe st (rid, setSingle d c none) := by
  have hstep : ∀ (stC : BuildState) (cC : SingleCol),
      processSingleAttr ("recipe", rid) d stC cC =
      processSingleAttr ("recipe", rid) (setSingle d c none) stC cC := by
    intro stC cC
    by_cases hc : cC = c
    · subst hc
      rw [processSingleAttr_skip _ _ _ _ h,
        processSingleAttr_skip _ _ _ _ (Or.inl (by rw [getSingle_setSingle]; simp))]
    · exact processSingleAttr_congr _ _ _ _ _
        (by rw [getSingle_setSingle, if_neg hc])
  obtain ⟨h1, h2, h3, h4⟩ := setSingle_other_fields d c (none : Option String)
  simp only [processRecipe]
  rw [List.foldl_ext _ _ _ (fun a b _ => hstep a b), h1, h2, h3, h4]

/-- C5: for a recipe whose value in a single-valued category is the
`"unknown"` placeholder, missing, or blank after trimming, the graph
builder creates no node, no edge and no triple for that category on
that recipe: the build output equals the output with that column
removed from the record. -/
theorem create_graph_skips_placeholder (pre post : List (String × RecipeDetails))
    (rid : String) (d : RecipeDetails) (c : SingleCol)
    (h : getSingle d c = none ∨ getSingle d c = some UNKNOWN_PLACEHOLDER ∨
      ∃ s, getSingle d c = some s ∧ pyStrip s = "") :
    create_graph_and_triples (pre ++ (rid, d) :: post) =
    create_graph_and_triples (pre ++ (rid, setSingle d c none) :: post) := by
  unfold create_graph_and_triples
  rw [List.foldl_append, List.foldl_append, List.foldl_cons, List.foldl_cons,
    ← processRecipe_setSingle_none rid d c h]

/-- C5 (witness): a record whose cooking method is the placeholder
builds the same graph as the record without a cooking method. -/
theorem create_graph_skips_placeholder_witness :
    create_graph_and_triples
      [("1", { Cooking_Method := some "unknown", meal_type := some "lunch" })] =
    create_graph_and_triples
      [("1", setSingle { Cooking_Method := some "unknown", meal_type := some "lunch" }
          SingleCol.Cooking_Method none)] :=
  create_graph_skips_placeholder [] [] "1"
    { Cooking_Method := some "unknown", meal_type := some "lunch" }
    SingleCol.Cooking_Method (Or.inr (Or.inl rfl))

/-! ## C4: correspondence between graph edges and triples -/

/-- C4 (counterexample): a recipe whose `meal_type` lists the same
element twice (`"a, a"`) produces a graph with one edge but a triples
list with two identical entries, so the triple list is not in
one-to-one correspondence with the edges. -/
theorem create_graph_triples_not_one_to_one :
    (create_graph_and_triples [("1", { meal_type := some "a, a" })]).edges.length = 1 ∧
    (create_graph_and_triples [("1", { meal_type := some "a, a" })]).triples.length = 2 ∧
    (create_graph_and_triples [("1", { meal_type := some "a, a" })]).triples =
      [(strNode ("recipe", "1"), "isForMealType", strNode ("meal_type", "a")),
       (strNode ("recipe", "1"), "isForMealType", strNode ("meal_type", "a"))] := by
  decide

/-- Auxiliary: a predicate on build states survives a left fold whose
steps preserve it. -/
theorem foldl_preserves {α : Type} (P : BuildState → Prop)
    (f : BuildState → α → BuildState) (l : List α) (st : BuildState)
    (hf : ∀ st a, P st → P (f st a)) (hst : P st) : P (l.foldl f st) := by
  induction l generalizing st with
  | nil => exact hst
  | cons a as ih => exact ih _ (hf _ _ hst)

/-- Auxiliary: re-adding an existing `(head, tail)` edge whose relation
is determined by its tail leaves the edge list unchanged, and the
upserted edge was already present. -/
theorem addEdge_of_mem (es : List Edge) (e : Edge)
    (hJ : ∀ f ∈ es, f.rel = relOfNode f.tail) (hrel : e.rel = relOfNode e.tail)
    (hex : ∃ f ∈ es, f.head = e.head ∧ f.tail = e.tail) :
    addEdge es e = es ∧ e ∈ es := by
  have hany : es.any (fun f => f.head = e.head && f.tail = e.tail) = true := by
    obtain ⟨f, hf, h1, h2⟩ := hex
    exact List.any_eq_true.mpr ⟨f, hf, by simp [h1, h2]⟩
  constructor
  · unfold addEdge
    rw [if_pos hany]
    have hmap : ∀ f ∈ es,
        (if f.head = e.head && f.tail = e.tail then
          (⟨f.head, e.rel, f.tail⟩ : Edge) else f) = id f := by
      intro f hf
      by_cases hm : f.head = e.head ∧ f.tail = e.tail
      · have hr : e.rel = f.rel := by rw [hJ f hf, hm.2, hrel]
        rw [if_pos (by simp [hm.1, hm.2])]
        cases f
        simp_all
      · rw [if_neg (by simpa using hm)]
        rfl
    rw [List.map_congr_left hmap, List.map_id]
  · obtain ⟨f, hf, h1, h2⟩ := hex
    have hr : f.rel = e.rel := by rw [hJ f hf, h2, hrel]
    have hfe : f = e := by
      cases f; cases e; simp_all
    exact hfe ▸ hf

/-- Auxiliary: adding a fresh `(head, tail)` edge appends it. -/
theorem addEdge_of_not_mem (es : List Edge) (e : Edge)
    (hex : ¬ ∃ f ∈ es, f.head = e.head ∧ f.tail = e.tail) :
    addEdge es e = es ++ [e] := by
  have hany : es.any (fun f => f.head = e.head && f.tail = e.tail) = false := by
    rw [List.any_eq_false]
    intro f hf hc
    exact hex ⟨f, hf, by simpa using hc⟩
  unfold addEdge
  rw [hany]
  rfl

/-- Auxiliary: `addAttrEdge` preserves the edge/triple invariant when
the added relation is the one determined by the tail node. -/
theorem addAttrEdge_inv (st : BuildState) (rn : NodeId) (rel : String)
    (nid : NodeId) (hrel : rel = relOfNode nid) (hst : EdgeTripleInv st) :
    EdgeTripleInv (addAttrEdge st rn rel nid) := by
  obtain ⟨hJ, hA, hB⟩ := hst
  by_cases hex : ∃ f ∈ st.edges, f.head = rn ∧ f.tail = nid
  · obtain ⟨heq, hmem⟩ := addEdge_of_mem st.edges ⟨rn, rel, nid⟩ hJ hrel hex
    refine ⟨?_, ?_, ?_⟩ <;>
      simp only [addAttrEdge, heq]
    · exact hJ
    · intro f hf
      exact List.mem_append_left _ (hA f hf)
    · intro t ht
      rcases List.mem_append.mp ht with ht | ht
      · obtain ⟨f, hf, hft⟩ := hB t ht
        exact ⟨f, hf, hft⟩
      · rcases List.mem_singleton.mp ht with rfl
        exact ⟨⟨rn, rel, nid⟩, hmem, rfl⟩
  · have heq := addEdge_of_not_mem st.edges ⟨rn, rel, nid⟩ hex
    refine ⟨?_, ?_, ?_⟩ <;>
      simp only [addAttrEdge, heq]
    · intro f hf
      rcases List.mem_append.mp hf with hf | hf
      · exact hJ f hf
      · rcases List.mem_singleton.mp hf with rfl
        exact hrel
    · intro f hf
      rcases List.mem_append.mp hf with hf | hf
      · exact List.mem_append_left _ (hA f hf)
      · rcases List.mem_singleton.mp hf with rfl
        exact List.mem_append_right _ (List.mem_singleton.mpr rfl)
    · intro t ht
      rcases List.mem_append.mp ht with ht | ht
      · obtain ⟨f, hf, hft⟩ := hB t ht
        exact ⟨f, List.mem_append_left _ hf, hft⟩
      · rcases List.mem_singleton.mp ht with rfl
        exact ⟨⟨rn, rel, nid⟩, List.mem_append_right _ (List.mem_singleton.mpr rfl), rfl⟩

/-- Auxiliary: the invariant ignores the node list. -/
theorem inv_set_nodes (st : BuildState) (ns : List NodeId)
    (h : EdgeTripleInv st) : EdgeTripleInv { st with nodes := ns } := h

/-- Auxiliary: single-valued attribute processing preserves the
invariant. -/
theorem processSingleAttr_inv (rn : NodeId) (d : RecipeDetails)
    (st : BuildState) (c : SingleCol) (h : EdgeTripleInv st) :
    EdgeTripleInv (processSingleAttr rn d st c) := by
  have key : ∀ (v : Option String) (rel nt : String),
      (∀ x : String, rel = relOfNode (nt, x)) →
      EdgeTripleInv (match v with
        | none => st
        | some element =>
          if element ≠ "" ∧ element ≠ UNKNOWN_PLACEHOLDER ∧ pyStrip element ≠ "" then
            addAttrEdge st rn rel (nt, pyStrip element)
          else st) := by
    intro v rel nt hrel
    cases v with
    | none => exact h
    | some s =>
      dsimp only
      by_cases hg : s ≠ "" ∧ s ≠ UNKNOWN_PLACEHOLDER ∧ pyStrip s ≠ ""
      · rw [if_pos hg]
        exact addAttrEdge_inv st rn rel _ (hrel _) h
      · rw [if_neg hg]
        exact h
  cases c
  · exact key d.Cooking_Method "usesCookingMethod" "cooking_method" (fun x => rfl)
  · exact key d.servings_bin "hasServingsBin" "servings_bin" (fun x => rfl)
  · exact key d.cook_time "hasCookTime" "cook_time" (fun x => rfl)
  · exact key d.CuisineRegion "hasCuisineRegion" "cuisine_region" (fun x => rfl)

/-- Auxiliary: health-attribute processing preserves the invariant. -/
theorem processHealthy_inv (rn : NodeId) (st : BuildState)
    (v : Option String) (h : EdgeTripleInv st) :
    EdgeTripleInv (processHealthy rn st v) := by
  unfold processHealthy
  cases v with
  | none => exact h
  | some s =>
    dsimp only
    by_cases hg : s ≠ "" ∧ s ≠ UNKNOWN_PLACEHOLDER ∧ pyStrip s ≠ ""
    · rw [if_pos hg]
      refine foldl_preserves _ _ _ _ (fun st' e h' => ?_) h
      by_cases he : e ≠ ""
      · rw [if_pos he]
        exact addAttrEdge_inv st' rn _ _ rfl h'
      · rw [if_neg he]
        exact h'
    · rw [if_neg hg]
      exact h

/-- Auxiliary: list-valued attribute processing preserves the
invariant whenever the fixed relation is the one its node type
determines. -/
theorem processListAttr_inv (rn : NodeId) (relation node_type : String)
    (delim : Char) (st : BuildState) (v : Option String)
    (hrel : ∀ x : String, relation = relOfNode (node_type, x))
    (h : EdgeTripleInv st) :
    EdgeTripleInv (processListAttr rn relation node_type delim st v) := by
  unfold processListAttr
  cases v with
  | none => exact h
  | some s =>
    dsimp only
    by_cases hg : s ≠ "" ∧ s ≠ UNKNOWN_PLACEHOLDER ∧ pyStrip s ≠ ""
    · rw [if_pos hg]
      refine foldl_preserves _ _ _ _ (fun st' e h' => ?_) h
      by_cases he : e ≠ ""
      · rw [if_pos he]
        exact addAttrEdge_inv st' rn _ _ (hrel _) h'
      · rw [if_neg he]
        exact h'
    · rw [if_neg hg]
      exact h

/-- Auxiliary: ingredient processing preserves the invariant. -/
theorem processIngredients_inv (rn : NodeId) (st : BuildState)
    (v : Option String) (h : EdgeTripleInv st) :
    EdgeTripleInv (processIngredients rn st v) := by
  unfold processIngredients
  cases v with
  | none => exact h
  | some s =>
    dsimp only
    by_cases hg : s ≠ "" ∧ s ≠ UNKNOWN_PLACEHOLDER ∧ pyStrip s ≠ ""
    · rw [if_pos hg]
      refine foldl_preserves _ _ _ _ (fun st' e h' => ?_) h
      by_cases he : e ≠ ""
      · rw [if_pos he]
        exact addAttrEdge_inv st' rn _ _ rfl h'
      · rw [if_neg he]
        exact h'
    · rw [if_neg hg]
      exact h

/-- Auxiliary: processing a whole recipe preserves the invariant. -/
theorem processRecipe_inv (st : BuildState) (r : String × RecipeDetails)
    (h : EdgeTripleInv st) : EdgeTripleInv (processRecipe st r) := by
  unfold processRecipe
  refine processIngredients_inv _ _ _ ?_
  refine processListAttr_inv _ _ _ _ _ _ (fun x => rfl) ?_
  refine processListAttr_inv _ _ _ _ _ _ (fun x => rfl) ?_
  refine processHealthy_inv _ _ _ ?_
  refine foldl_preserves _ _ _ _ (fun st' c h' => processSingleAttr_inv _ _ _ _ h') ?_
  exact inv_set_nodes st _ h

/-- C4 (amended): every edge of the built graph is stringified into at
least one triple of the triples list, and every triple of the list is
the stringification of some edge; the correspondence is not one-to-one
in general because a duplicated list element in one record appends the
same triple twice while the graph keeps a single edge. -/
theorem create_graph_edges_triples_correspond
    (recipes : List (String × RecipeDetails)) :
    (∀ e ∈ (create_graph_and_triples recipes).edges,
      strTriple e ∈ (create_graph_and_triples recipes).triples) ∧
    (∀ t ∈ (create_graph_and_triples recipes).triples,
      ∃ e ∈ (create_graph_and_triples recipes).edges, strTriple e = t) := by
  have hinv : EdgeTripleInv (create_graph_and_triples recipes) := by
    unfold create_graph_and_triples
    refine foldl_preserves _ _ _ _ (fun st r h => processRecipe_inv st r h) ?_
    refine ⟨?_, ?_, ?_⟩ <;> intro x hx <;> cases hx
  exact ⟨hinv.2.1, hinv.2.2⟩

/-! ## C6: case-insensitive ingredient node identity -/

/-- C6 (counterexample): `"UNKNOWN"` and `"unknown"` differ only in
letter casing, yet the record carrying `"UNKNOWN"` produces an
ingredient edge (to the node `("ingredient", "unknown")`) while the
record carrying the exact placeholder `"unknown"` is skipped and
produces no edge at all: the placeholder comparison is
case-sensitive. -/
theorem ingredient_case_counterexample :
    pyLower "UNKNOWN" = pyLower "unknown" ∧
    (create_graph_and_triples
      [("1", { BestUsdaIngredientName := some "UNKNOWN" })]).edges =
      [⟨("recipe", "1"), "containsIngredient", ("ingredient", "unknown")⟩] ∧
    (create_graph_and_triples
      [("2", { BestUsdaIngredientName := some "unknown" })]).edges = [] := by
  decide

/-- Auxiliary: ASCII case folding does not change whitespace-ness. -/
theorem pyCharLower_space (c : Char) : isPySpace (pyCharLower c) = isPySpace c := by
  unfold pyCharLower
  split <;> (try subst_vars) <;> first | rfl | decide

/-- Auxiliary: ASCII case folding fixes the semicolon and detects it
faithfully. -/
theorem pyCharLower_semi (c : Char) : (pyCharLower c = ';') ↔ (c = ';') := by
  unfold pyCharLower
  split <;> (try subst_vars) <;> first | rfl | decide

/-- Auxiliary: a string's character list is empty exactly when the
string is empty. -/
theorem data_eq_nil_iff (x : String) : x.data = [] ↔ x = "" := by
  rw [show ("" : String) = String.mk [] from rfl, ← String.ext_iff]

/-- Auxiliary: strings equal up to lowercasing are simultaneously
empty. -/
theorem lowerEq_empty_iff (x y : String) (h : pyLower x = pyLower y) :
    x = "" ↔ y = "" := by
  have hd : x.data.map pyCharLower = y.data.map pyCharLower := by
    simpa [pyLower, String.ext_iff] using h
  rw [← data_eq_nil_iff, ← data_eq_nil_iff]
  constructor
  · intro hx
    rw [hx] at hd
    exact List.map_eq_nil.mp hd.symm
  · intro hy
    rw [hy] at hd
    exact List.map_eq_nil.mp hd

/-- Auxiliary: leading-whitespace trimming commutes with lowercase
equivalence. -/
theorem ltrim_lowerEq (l₁ : List Char) : ∀ (l₂ : List Char),
    l₁.map pyCharLower = l₂.map pyCharLower →
    (ltrim l₁).map pyCharLower = (ltrim l₂).map pyCharLower := by
  induction l₁ with
  | nil =>
    intro l₂ h
    have hl : l₂ = [] := List.map_eq_nil_iff.mp h.symm
    subst hl
    rfl
  | cons c₁ cs₁ ih =>
    intro l₂ h
    cases l₂ with
    | nil => cases h
    | cons c₂ cs₂ =>
      simp only [List.map_cons, List.cons.injEq] at h
      have hsp : isPySpace c₁ = isPySpace c₂ := by
        rw [← pyCharLower_space c₁, h.1, pyCharLower_space]
      unfold ltrim
      rw [List.dropWhile_cons, List.dropWhile_cons, ← hsp]
      cases hs : isPySpace c₁ with
      | true => simpa using ih cs₂ h.2
      | false => simp [h.1, h.2]

/-- Auxiliary: stripping commutes with lowercase equivalence. -/
theorem pyStrip_lowerEq (s₁ s₂ : String) (h : pyLower s₁ = pyLower s₂) :
    pyLower (pyStrip s₁) = pyLower (pyStrip s₂) := by
  have hd : s₁.data.map pyCharLower = s₂.data.map pyCharLower := by
    simpa [pyLower, String.ext_iff] using h
  have h1 : (ltrim s₁.data.reverse).map pyCharLower =
      (ltrim s₂.data.reverse).map pyCharLower :=
    ltrim_lowerEq _ _ (by rw [List.map_reverse, List.map_reverse, hd])
  have h2 : (ltrim s₁.data.reverse).reverse.map pyCharLower =
      (ltrim s₂.data.reverse).reverse.map pyCharLower := by
    rw [List.map_reverse, List.map_reverse, h1]
  exact congrArg String.mk (ltrim_lowerEq _ _ h2)

/-- Auxiliary: the single-character split never returns an empty piece
list. -/
theorem pySplitChar_ne_nil (d : Char) (l : List Char) : pySplitChar d l ≠ [] := by
  cases l with
  | nil => simp [pySplitChar]
  | cons c cs =>
    unfold pySplitChar
    rcases hrec : pySplitChar d cs with _ | ⟨p, ps⟩
    · simp
    · by_cases hc : c = d <;> simp [hc]

/-- Auxiliary: splitting commutes with lowercase equivalence, piece by
piece, for a separator fixed by case folding. -/
theorem pySplitChar_lowerEq (d : Char) (hd : ∀ c, (pyCharLower c = d) ↔ (c = d))
    (l₁ : List Char) : ∀ (l₂ : List Char),
    l₁.map pyCharLower = l₂.map pyCharLower →
    List.Forall₂ (fun a b => a.map pyCharLower = b.map pyCharLower)
      (pySplitChar d l₁) (pySplitChar d l₂) := by
  induction l₁ with
  | nil =>
    intro l₂ h
    have hl : l₂ = [] := List.map_eq_nil_iff.mp h.symm
    subst hl
    exact List.Forall₂.cons rfl List.Forall₂.nil
  | cons c₁ cs₁ ih =>
    intro l₂ h
    cases l₂ with
    | nil => cases h
    | cons c₂ cs₂ =>
      simp only [List.map_cons, List.cons.injEq] at h
      obtain ⟨p₁, ps₁, hsp₁⟩ : ∃ p ps, pySplitChar d cs₁ = p :: ps := by
        rcases hx : pySplitChar d cs₁ with _ | ⟨p, ps⟩
        · exact absurd hx (pySplitChar_ne_nil d cs₁)
        · exact ⟨p, ps, rfl⟩
      obtain ⟨p₂, ps₂, hsp₂⟩ : ∃ p ps, pySplitChar d cs₂ = p :: ps := by
        rcases hx : pySplitChar d cs₂ with _ | ⟨p, ps⟩
        · exact absurd hx (pySplitChar_ne_nil d cs₂)
        · exact ⟨p, ps, rfl⟩
      have hih := ih cs₂ h.2
      rw [hsp₁, hsp₂] at hih
      obtain ⟨hp, hps⟩ := List.forall₂_cons.mp hih
      have hdd : c₁ = d ↔ c₂ = d := by
        rw [← hd c₁, ← hd c₂, h.1]
      by_cases hc : c₁ = d
      · have hc₂ : c₂ = d := hdd.mp hc
        simp only [pySplitChar, hsp₁, hsp₂, if_pos hc, if_pos hc₂]
        exact List.Forall₂.cons rfl (List.Forall₂.cons hp hps)
      · have hc₂ : ¬ c₂ = d := fun hx => hc (hdd.mpr hx)
        simp only [pySplitChar, hsp₁, hsp₂, if_neg hc, if_neg hc₂]
        exact List.Forall₂.cons (by simp [h.1, hp]) hps

/-- Auxiliary: the trim-and-filter stage commutes with lowercase
equivalence, piece by piece. -/
theorem clean_lowerEq {ps₁ ps₂ : List (List Char)}
    (hf : List.Forall₂ (fun a b => a.map pyCharLower = b.map pyCharLower) ps₁ ps₂) :
    List.Forall₂ (fun a b => pyLower a = pyLower b)
      ((ps₁.map (fun l => pyStrip (String.mk l))).filter (fun v => v ≠ ""))
      ((ps₂.map (fun l => pyStrip (String.mk l))).filter (fun v => v ≠ "")) := by
  induction hf with
  | nil => exact List.Forall₂.nil
  | @cons a b as bs hR htail ihf =>
    have hlow : pyLower (pyStrip (String.mk a)) = pyLower (pyStrip (String.mk b)) :=
      pyStrip_lowerEq _ _ (congrArg String.mk hR)
    have hempty : (pyStrip (String.mk a) = "") ↔ (pyStrip (String.mk b) = "") :=
      lowerEq_empty_iff _ _ hlow
    simp only [List.map_cons, List.filter_cons]
    by_cases hz : pyStrip (String.mk a) = ""
    · rw [if_neg (by simp [hz]), if_neg (by simp [hempty.mp hz])]
      exact ihf
    · rw [if_pos (by simpa using hz),
        if_pos (by simpa using (fun hx => hz (hempty.mpr hx) : ¬ _))]
      exact List.Forall₂.cons hlow ihf

/-- Auxiliary: the full split-trim-filter pipeline commutes with
lowercase equivalence. -/
theorem split_and_clean_lowerEq (v₁ v₂ : String) (d : Char)
    (hd : ∀ c, (pyCharLower c = d) ↔ (c = d))
    (h : pyLower v₁ = pyLower v₂) :
    List.Forall₂ (fun a b => pyLower a = pyLower b)
      (split_and_clean v₁ d) (split_and_clean v₂ d) := by
  have hdata : v₁.data.map pyCharLower = v₂.data.map pyCharLower := by
    simpa [pyLower, String.ext_iff] using h
  exact clean_lowerEq (pySplitChar_lowerEq d hd v₁.data v₂.data hdata)

/-- Auxiliary: under a same-head invariant, the duplicate-edge check
only looks at edge tails. -/
theorem any_head_tail (es : List Edge) (rn : NodeId) (t : NodeId)
    (h : ∀ e ∈ es, e.head = rn) :
    es.any (fun f => f.head = rn && f.tail = t) =
      (es.map Edge.tail).any (fun x => x = t) := by
  induction es with
  | nil => rfl
  | cons f fs ih =>
    have hf : f.head = rn := h f (List.mem_cons_self f fs)
    simp only [List.any_cons, List.map_cons, hf, decide_True, Bool.true_and]
    rw [ih (fun e he => h e (List.mem_cons_of_mem f he))]

/-- Auxiliary: adding the same tail node from two recipe nodes keeps
the edge-tail sequences equal and the per-graph head invariants. -/
theorem addAttrEdge_tails (st₁ st₂ : BuildState) (rn₁ rn₂ : NodeId)
    (rel : String) (t : NodeId)
    (he : st₁.edges.map Edge.tail = st₂.edges.map Edge.tail)
    (h1 : ∀ e ∈ st₁.edges, e.head = rn₁) (h2 : ∀ e ∈ st₂.edges, e.head = rn₂) :
    ((addAttrEdge st₁ rn₁ rel t).edges.map Edge.tail =
      (addAttrEdge st₂ rn₂ rel t).edges.map Edge.tail) ∧
    (∀ e ∈ (addAttrEdge st₁ rn₁ rel t).edges, e.head = rn₁) ∧
    (∀ e ∈ (addAttrEdge st₂ rn₂ rel t).edges, e.head = rn₂) := by
  have hany : st₁.edges.any (fun f => f.head = rn₁ && f.tail = t) =
      st₂.edges.any (fun f => f.head = rn₂ && f.tail = t) := by
    rw [any_head_tail _ _ _ h1, any_head_tail _ _ _ h2, he]
  simp only [addAttrEdge, addEdge]
  cases hc : st₂.edges.any (fun f => f.head = rn₂ && f.tail = t) with
  | true =>
    rw [hany, hc]
    simp only [if_true]
    refine ⟨?_, ?_, ?_⟩
    · rw [List.map_map, List.map_map]
      have e1 : ∀ f ∈ st₁.edges,
          (Edge.tail ∘ fun f => if f.head = rn₁ && f.tail = t then
            (⟨f.head, rel, f.tail⟩ : Edge) else f) f = Edge.tail f := by
        intro f _
        by_cases hm : f.head = rn₁ && f.tail = t
        · simp [Function.comp, hm]
        · simp [Function.comp, hm]
      have e2 : ∀ f ∈ st₂.edges,
          (Edge.tail ∘ fun f => if f.head = rn₂ && f.tail = t then
            (⟨f.head, rel, f.tail⟩ : Edge) else f) f = Edge.tail f := by
        intro f _
        by_cases hm : f.head = rn₂ && f.tail = t
        · simp [Function.comp, hm]
        · simp [Function.comp, hm]
      rw [List.map_congr_left e1, List.map_congr_left e2, he]
    · intro e hemem
      obtain ⟨f, hf, hfe⟩ := List.mem_map.mp hemem
      rw [← hfe]
      by_cases hm : f.head = rn₁ ∧ f.tail = t
      · rw [if_pos (by simp [hm.1, hm.2])]
        exact h1 f hf
      · rw [if_neg (by simpa using hm)]
        exact h1 f hf
    · intro e hemem
      obtain ⟨f, hf, hfe⟩ := List.mem_map.mp hemem
      rw [← hfe]
      by_cases hm : f.head = rn₂ ∧ f.tail = t
      · rw [if_pos (by simp [hm.1, hm.2])]
        exact h2 f hf
      · rw [if_neg (by simpa using hm)]
        exact h2 f hf
  | false =>
    rw [hany, hc]
    simp only [Bool.false_eq_true, if_false]
    refine ⟨?_, ?_, ?_⟩
    · simp [he]
    · intro e hemem
      rcases List.mem_append.mp hemem with hm | hm
      · exact h1 e hm
      · rw [List.mem_singleton.mp hm]
    · intro e hemem
      rcases List.mem_append.mp hemem with hm | hm
      · exact h2 e hm
      · rw [List.mem_singleton.mp hm]

/-- Auxiliary: the ingredient fold produces equal edge-tail sequences
from piece lists that are equal up to casing. -/
theorem ingrFold_tails {ps₁ ps₂ : List String}
    (hps : List.Forall₂ (fun a b => pyLower a = pyLower b) ps₁ ps₂) :
    ∀ (st₁ st₂ : BuildState) (rn₁ rn₂ : NodeId),
    st₁.edges.map Edge.tail = st₂.edges.map Edge.tail →
    (∀ e ∈ st₁.edges, e.head = rn₁) → (∀ e ∈ st₂.edges, e.head = rn₂) →
    ((ps₁.foldl (fun st ingredient => if ingredient ≠ "" then
        addAttrEdge st rn₁ "containsIngredient" ("ingredient", pyLower ingredient)
      else st) st₁).edges.map Edge.tail =
     (ps₂.foldl (fun st ingredient => if ingredient ≠ "" then
        addAttrEdge st rn₂ "containsIngredient" ("ingredient", pyLower ingredient)
      else st) st₂).edges.map Edge.tail) := by
  induction hps with
  | nil =>
    intro st₁ st₂ rn₁ rn₂ he _ _
    exact he
  | @cons a b as bs hR htail ihf =>
    intro st₁ st₂ rn₁ rn₂ he h1 h2
    simp only [List.foldl_cons]
    by_cases hz : a = ""
    · have hzb : b = "" := (lowerEq_empty_iff a b hR).mp hz
      rw [if_neg (by simp [hz]), if_neg (by simp [hzb])]
      exact ihf _ _ _ _ he h1 h2
    · have hzb : b ≠ "" := fun hx => hz ((lowerEq_empty_iff a b hR).mpr hx)
      rw [if_pos (by simpa using hz), if_pos (by simpa using hzb), hR]
      obtain ⟨he', h1', h2'⟩ :=
        addAttrEdge_tails st₁ st₂ rn₁ rn₂ "containsIngredient"
          ("ingredient", pyLower b) he h1 h2
      exact ihf _ _ _ _ he' h1' h2'

/-- Auxiliary: building from a single ingredient-only record reduces to
the ingredient-processing step over the fresh recipe node. -/
theorem create_ingrOnly (rid v : String) :
    create_graph_and_triples [(rid, { BestUsdaIngredientName := some v })] =
    processIngredients ("recipe", rid) ⟨[("recipe", rid)], [], []⟩ (some v) := by
  simp [create_graph_and_triples, processRecipe, processSingleAttr, getSingle,
    processHealthy, processListAttr, addNode]

/-- C6 (amended): two recipe records whose ingredient strings differ
only in letter casing produce ingredient edges to the same nodes
(`("ingredient", lowercased value)` identity), provided neither string
is the exact reserved placeholder `"unknown"` — whose comparison is
case-sensitive, as the counterexample shows. -/
theorem ingredient_node_case_insensitive (rid₁ rid₂ v₁ v₂ : String)
    (hcase : pyLower v₁ = pyLower v₂)
    (h₁ : v₁ ≠ UNKNOWN_PLACEHOLDER) (h₂ : v₂ ≠ UNKNOWN_PLACEHOLDER) :
    ((create_graph_and_triples
        [(rid₁, { BestUsdaIngredientName := some v₁ })]).edges.map Edge.tail) =
    ((create_graph_and_triples
        [(rid₂, { BestUsdaIngredientName := some v₂ })]).edges.map Edge.tail) := by
  rw [create_ingrOnly, create_ingrOnly]
  unfold processIngredients
  dsimp only
  by_cases hz : v₁ = ""
  · rw [if_neg (by simp [hz]), if_neg (by simp [(lowerEq_empty_iff v₁ v₂ hcase).mp hz])]
  · have hzb : v₂ ≠ "" := fun hx => hz ((lowerEq_empty_iff v₁ v₂ hcase).mpr hx)
    by_cases hs : pyStrip v₁ = ""
    · have hsb : pyStrip v₂ = "" :=
        (lowerEq_empty_iff _ _ (pyStrip_lowerEq v₁ v₂ hcase)).mp hs
      rw [if_neg (by simp [hs]), if_neg (by simp [hsb])]
    · have hsb : pyStrip v₂ ≠ "" := fun hx =>
        hs ((lowerEq_empty_iff _ _ (pyStrip_lowerEq v₁ v₂ hcase)).mpr hx)
      rw [if_pos ⟨hz, h₁, hs⟩, if_pos ⟨hzb, h₂, hsb⟩]
      exact ingrFold_tails
        (split_and_clean_lowerEq v₁ v₂ ';' pyCharLower_semi hcase)
        _ _ _ _ rfl (fun e he => absurd he (List.not_mem_nil e))
        (fun e he => absurd he (List.not_mem_nil e))

/-- C6 (witness): the amended theorem applied at `"Tomato"` and
`"toMATO"`. -/
theorem ingredient_node_case_insensitive_witness :
    ((create_graph_and_triples
        [("1", { BestUsdaIngredientName := some "Tomato" })]).edges.map Edge.tail) =
    ((create_graph_and_triples
        [("2", { BestUsdaIngredientName := some "toMATO" })]).edges.map Edge.tail) :=
  ingredient_node_case_insensitive "1" "2" "Tomato" "toMATO"
    (by decide) (by decide) (by decide)

end FoodKG
